import Mathlib

/-!
# earth: verification development for `earth.go`

The program renders an animated globe: for every centre longitude of a sweep it
projects a globe outline and the rings of every feature, and issues drawing
commands (move-to, line-to, close, fill+stroke) on a graphic context.

Embedding conventions.

* `float64` values are `F64`: a rational number, one of the two infinities, or
  NaN. Arithmetic on finite values is exact (no rounding, no overflow to an
  infinity); the special values follow the IEEE rules.
* `int(f)` is truncation toward zero for a finite `f`. For a value that `int`
  cannot represent (an infinity or NaN) Go leaves the result to the
  implementation: it is the parameter `undef`.
* `math.Pi / 180.0` is not rational: the constant `deg2Rad` is a parameter.
* The graphic context is modelled by the list of commands it has received.
* The external capabilities (projection set-up, `TransformPoints`, GeoJSON
  decoding, file creation, GIF encoding) are fields of an environment `Env`
  that records what each of them answers.
-/

namespace Earth

/-! ## float64 -/

/-- A `float64` value. -/
inductive F64 where
  | fin (q : ℚ)
  | posInf
  | negInf
  | nan
  deriving DecidableEq, Repr

namespace F64

/-- `math.IsInf(f, 0)`: true for either infinity, false for NaN and finite values. -/
def IsInf : F64 → Bool
  | posInf => true
  | negInf => true
  | _ => false

/-- Unary minus. -/
def neg : F64 → F64
  | fin q => fin (-q)
  | posInf => negInf
  | negInf => posInf
  | nan => nan

/-- The infinity whose sign is that of the rational `s` (`s` nonzero). -/
def infOfSign (s : ℚ) : F64 := if 0 < s then posInf else negInf

/-- Sign of a non-NaN value as a rational: `1`, `0` or `-1`. -/
def sgn : F64 → ℚ
  | fin q => if 0 < q then 1 else if q < 0 then -1 else 0
  | posInf => 1
  | negInf => -1
  | nan => 0

/-- Product of two `float64` values. -/
def mul : F64 → F64 → F64
  | fin a, fin b => fin (a * b)
  | nan, _ => nan
  | _, nan => nan
  | a, b => if sgn a * sgn b = 0 then nan else infOfSign (sgn a * sgn b)

/-- Quotient of two `float64` values. -/
def div : F64 → F64 → F64
  | nan, _ => nan
  | _, nan => nan
  | fin a, fin b =>
    if b = 0 then (if a = 0 then nan else infOfSign (sgn (fin a))) else fin (a / b)
  | fin _, _ => fin 0
  | a, fin b => if b < 0 then infOfSign (-(sgn a)) else infOfSign (sgn a)
  | _, _ => nan

/-- Truncation toward zero of a rational number. -/
def truncQ (q : ℚ) : Int := if 0 ≤ q then ⌊q⌋ else ⌈q⌉

/-- The conversion `int(f)`: truncation toward zero for a finite value, the
implementation-dependent `undef f` otherwise. -/
def toInt (undef : F64 → Int) : F64 → Int
  | fin q => truncQ q
  | v => undef v

end F64

/-! ## Points and drawing commands -/

/-- The type `geom.Point`. -/
structure Point where
  X : F64
  Y : F64
  deriving DecidableEq, Repr

/-- The type `color.RGBA`. -/
structure RGBA where
  R : Nat
  G : Nat
  B : Nat
  A : Nat
  deriving DecidableEq, Repr

/-- A call received by the graphic context `gc`. -/
inductive DrawOp where
  | SetFillColor (c : RGBA)
  | SetStrokeColor (c : RGBA)
  | SetLineWidth (w : ℚ)
  | Translate (tx ty : ℚ)
  | Scale (sx sy : ℚ)
  | MoveTo (x y : F64)
  | LineTo (x y : F64)
  | Close
  | FillStroke
  deriving DecidableEq, Repr

/-- The constant `imgSize := 192.`. -/
def imgSize : ℚ := 192

/-- The pixel key `int(points[i].X * imgSize / 6378137.)`. -/
def pixelX (undef : F64 → Int) (p : Point) : Int :=
  F64.toInt undef (F64.div (F64.mul p.X (F64.fin imgSize)) (F64.fin 6378137))

/-- The pixel key `int(-points[i].Y * imgSize / 6378137.)`. -/
def pixelY (undef : F64 → Int) (p : Point) : Int :=
  F64.toInt undef (F64.div (F64.mul (F64.neg p.Y) (F64.fin imgSize)) (F64.fin 6378137))

/-- The test `math.IsInf(points[i].X, 0) || math.IsInf(points[i].Y, 0)`: the
point is a sentinel, out of the visible area. -/
def isSentinel (p : Point) : Bool := F64.IsInf p.X || F64.IsInf p.Y

/-! ## The ring-drawing callback (second `g.Iterate`) -/

/-- Local variables of the ring-drawing callback, with the commands issued so far. -/
structure RingState where
  previousX : Int
  previousY : Int
  bStarted : Bool
  gc : List DrawOp
  deriving DecidableEq, Repr

/-- State at the entry of the loop: `var previousX int`, `var previousY int`,
`bStarted := false`. -/
def RingState.init : RingState :=
  { previousX := 0, previousY := 0, bStarted := false, gc := [] }

/-- One iteration of `for i := 0; i < len(points); i++` on the point `points[i]`. -/
def ringStep (undef : F64 → Int) (s : RingState) (p : Point) : RingState :=
  if F64.IsInf p.X || F64.IsInf p.Y then
    s
  else if !s.bStarted then
    { gc := s.gc ++ [DrawOp.MoveTo p.X p.Y]
      previousX := pixelX undef p
      previousY := pixelY undef p
      bStarted := true }
  else
    let currentX := pixelX undef p
    let currentY := pixelY undef p
    if currentX != s.previousX || currentY != s.previousY then
      { s with
        gc := s.gc ++ [DrawOp.LineTo p.X p.Y]
        previousX := currentX
        previousY := currentY }
    else
      s

/-- The whole loop over the points of a ring. -/
def ringLoop (undef : F64 → Int) (points : List Point) : RingState :=
  points.foldl (ringStep undef) RingState.init

/-- The commands the ring-drawing callback issues for one ring: the loop, then
`gc.Close()` and `gc.FillStroke()` when `bStarted`. -/
def drawRing (undef : F64 → Int) (points : List Point) : List DrawOp :=
  let s := ringLoop undef points
  if s.bStarted then s.gc ++ [DrawOp.Close, DrawOp.FillStroke] else s.gc

/-- The points of a ring that the loop does not skip. -/
def visiblePoints (points : List Point) : List Point :=
  points.filter (fun p => !isSentinel p)

/-- The points given to `MoveTo` and `LineTo`, in order. -/
def emittedPoints : List DrawOp → List Point
  | [] => []
  | DrawOp.MoveTo x y :: ops => ⟨x, y⟩ :: emittedPoints ops
  | DrawOp.LineTo x y :: ops => ⟨x, y⟩ :: emittedPoints ops
  | _ :: ops => emittedPoints ops

/-- The point of the most recent `MoveTo` or `LineTo`. -/
def lastEmitted (ops : List DrawOp) : Option Point := (emittedPoints ops).getLast?

/-- Splits a command list at every `MoveTo`: the points that follow the last
`MoveTo` seen so far (first component, when no `MoveTo` precedes them) and the
sub-paths, each one the point of a `MoveTo` followed by the points of the
`LineTo` commands up to the next `MoveTo`. -/
def splitPaths : List DrawOp → List Point × List (List Point)
  | [] => ([], [])
  | DrawOp.MoveTo x y :: ops => ([], (⟨x, y⟩ :: (splitPaths ops).1) :: (splitPaths ops).2)
  | DrawOp.LineTo x y :: ops => (⟨x, y⟩ :: (splitPaths ops).1, (splitPaths ops).2)
  | _ :: ops => splitPaths ops

/-- The sub-paths of a command list, in drawing order. -/
def subPaths (ops : List DrawOp) : List (List Point) := (splitPaths ops).2

/-- The commands that draw the points of one path: `MoveTo` the first point,
`LineTo` every other one. -/
def pathOps : List Point → List DrawOp
  | [] => []
  | p :: rest => DrawOp.MoveTo p.X p.Y :: rest.map (fun q => DrawOp.LineTo q.X q.Y)

/-- Two points fall in different pixels. -/
def pixelNe (undef : F64 → Int) (p q : Point) : Prop :=
  ¬ (pixelX undef p = pixelX undef q ∧ pixelY undef p = pixelY undef q)

instance (undef : F64 → Int) : DecidableRel (pixelNe undef) :=
  fun _ _ => inferInstanceAs (Decidable (¬ _))

/-- The ring drawing the specification describes: the ring is cut at its
sentinel entries, and every maximal run of consecutive non-sentinel points is
a sub-path of its own (`MoveTo`, `LineTo`s between points of different pixels,
`Close`, `FillStroke`). -/
def drawRingSegmented (undef : F64 → Int) (points : List Point) : List DrawOp :=
  ((points.splitOnP (fun p => isSentinel p)).filter (fun run => !run.isEmpty)).flatMap
    (fun run => pathOps (run.destutter (pixelNe undef)) ++ [DrawOp.Close, DrawOp.FillStroke])

/-- The drawing transform set by `gc.Translate(96, 96)` and
`gc.Scale(imgSize/(2*6378137), -imgSize/(2*6378137))`: canvas abscissa of a
projected abscissa. -/
def canvasX (x : ℚ) : ℚ := 96 + x * (imgSize / (2 * 6378137))

/-- Canvas ordinate of a projected ordinate, under the same transform. -/
def canvasY (y : ℚ) : ℚ := 96 + y * (-imgSize / (2 * 6378137))

/-! ## The globe outline -/

/-- The loop `for i := -90.; i <= 90.; i += 5.`, appending the points of
longitude `lon + 90`. The loop variable only takes integer values, which
`float64` represents exactly. -/
def globeUp (deg2Rad lon : ℚ) (i : ℚ) (globe : List Point) : List Point :=
  if i ≤ 90 then
    globeUp deg2Rad lon (i + 5)
      (globe ++ [{ X := F64.fin ((lon + 90) * deg2Rad), Y := F64.fin (i * deg2Rad) }])
  else
    globe
termination_by (⌊90 - i⌋ + 1).toNat
decreasing_by
  have h1 : ⌊(90 : ℚ) - (i + 5)⌋ = ⌊(90 : ℚ) - i⌋ - 5 := by
    rw [show (90 : ℚ) - (i + 5) = (90 - i) - ((5 : ℤ) : ℚ) by push_cast; ring, Int.floor_sub_int]
  have h2 : 0 ≤ ⌊(90 : ℚ) - i⌋ := Int.floor_nonneg.mpr (by linarith)
  omega

/-- The loop `for i := 90.; i > -90.; i -= 5.`, appending the points of
longitude `lon - 90`. -/
def globeDown (deg2Rad lon : ℚ) (i : ℚ) (globe : List Point) : List Point :=
  if i > -90 then
    globeDown deg2Rad lon (i - 5)
      (globe ++ [{ X := F64.fin ((lon - 90) * deg2Rad), Y := F64.fin (i * deg2Rad) }])
  else
    globe
termination_by (⌈i + 90⌉).toNat
decreasing_by
  have h1 : ⌈i - 5 + 90⌉ = ⌈i + 90⌉ - 5 := by
    rw [show i - 5 + 90 = (i + 90) - ((5 : ℤ) : ℚ) by push_cast; ring, Int.ceil_sub_int]
  have h2 : 0 < ⌈i + 90⌉ := Int.ceil_pos.mpr (by linarith)
  omega

/-- The globe outline before projection: `var globe []geom.Point` filled by
the two loops. -/
def buildGlobe (deg2Rad lon : ℚ) : List Point :=
  globeDown deg2Rad lon 90 (globeUp deg2Rad lon (-90) [])

/-- The emission of the projected outline: `MoveTo` for `i == 0`, `LineTo`
otherwise, then `Close` and `FillStroke`; no point is tested. -/
def drawGlobe (globe : List Point) : List DrawOp :=
  pathOps globe ++ [DrawOp.Close, DrawOp.FillStroke]

/-! ## The program -/

/-- The colour `colorBackground`. -/
def colorBackground : RGBA := { R := 0xff, G := 0xff, B := 0xff, A := 0x00 }

/-- The colour `colorOcean`. -/
def colorOcean : RGBA := { R := 0x00, G := 0x66, B := 0xff, A := 0xff }

/-- The colour `colorBlack`. -/
def colorBlack : RGBA := { R := 0xff, G := 0xff, B := 0xff, A := 0xff }

/-- The colour `colorLand`. -/
def colorLand : RGBA := { R := 0x00, G := 0x88, B := 0x22, A := 0xff }

/-- The colour `colorBorder`. -/
def colorBorder : RGBA := { R := 0x22, G := 0x22, B := 0x22, A := 0xff }

/-- A feature of the decoded collection, given by what `geojson.FromGeoJSON`
answers on its geometry: an error, or a geometry whose `Iterate` visits the
listed rings in order (coordinates in degrees). -/
structure Feature where
  Geometry : Except String (List (List Point))

/-- An `*image.Paletted` frame, given by the commands that painted the RGBA
image it is copied from. -/
structure Paletted where
  gc : List DrawOp
  deriving DecidableEq, Repr

/-- The value `gif.GIF` handed to the encoder. -/
structure GIF where
  Image : List Paletted
  Delay : List Int
  deriving DecidableEq, Repr

/-- What the outside world answers to the program. An absent error is `none`. -/
structure Env where
  /-- `flag.Arg(0)` -/
  input : String
  /-- error of `os.Open(input)` -/
  openFile : Option String
  /-- `dec.DecodeCollection(&c)`: an error, or the features of the collection -/
  decodeCollection : Except String (List Feature)
  /-- error of `proj.InitPlus("+init=epsg:4326")` -/
  initWGS84 : Option String
  /-- error of `proj.InitPlus(projString)` for the centre longitude `lon` -/
  initOrtho : ℚ → Option String
  /-- error of `proj.NewTransformation(projWGS84, projOrtho)` for `lon` -/
  newTransformation : ℚ → Option String
  /-- `transfo.TransformPoints(points)` for `lon`: the content of the slice
  afterwards, and the error returned -/
  TransformPoints : ℚ → List Point → List Point × Option String
  /-- error of `os.Create("earth.gif")` -/
  create : Option String
  /-- error of `gif.EncodeAll(imgFile, &g)` -/
  encodeAll : GIF → Option String

/-- How a run ends: `log.Fatal` exits the process before `gif.EncodeAll` has
returned without error, or the animation `g` has been encoded to `earth.gif`. -/
inductive Outcome where
  | fatal (msg : String)
  | written (g : GIF)
  deriving DecidableEq, Repr

/-- The degrees-to-radians loop of the first `g.Iterate` callback. -/
def toRadians (deg2Rad : ℚ) (points : List Point) : List Point :=
  points.map (fun p =>
    { X := F64.mul p.X (F64.fin deg2Rad), Y := F64.mul p.Y (F64.fin deg2Rad) })

/-- The first `g.Iterate(...)`: every ring is converted to radians and
transformed in place; `Iterate` stops at the first ring whose callback returns
an error and returns that error. The result is the rings afterwards and the
value `Iterate` returns. -/
def projectRings (deg2Rad : ℚ) (tp : List Point → List Point × Option String) :
    List (List Point) → List (List Point) × Option String
  | [] => ([], none)
  | ring :: rest =>
    match tp (toRadians deg2Rad ring) with
    | (ring1, some err) => (ring1 :: rest, some err)
    | (ring1, none) => (ring1 :: (projectRings deg2Rad tp rest).1, (projectRings deg2Rad tp rest).2)

/-- The second `g.Iterate(...)`: every ring is drawn; the callback always
returns `nil`. -/
def drawRings (undef : F64 → Int) (rings : List (List Point)) : List DrawOp :=
  rings.flatMap (drawRing undef)

/-- The loop `for i := range c.Features`: the commands issued, or the message
of `log.Fatal`. The value returned by the first `g.Iterate` is not used. -/
def drawFeatures (deg2Rad : ℚ) (undef : F64 → Int)
    (tp : List Point → List Point × Option String) :
    List Feature → List DrawOp → Except String (List DrawOp)
  | [], gc => Except.ok gc
  | f :: rest, gc =>
    match f.Geometry with
    | Except.error err => Except.error err
    | Except.ok g =>
      drawFeatures deg2Rad undef tp rest
        (gc ++ drawRings undef (projectRings deg2Rad tp g).1)

/-- The commands that clear the canvas and prepare the outline pass. -/
def framePrologue : List DrawOp :=
  [ DrawOp.SetFillColor colorBackground,
    DrawOp.MoveTo (F64.fin 0) (F64.fin 0),
    DrawOp.LineTo (F64.fin imgSize) (F64.fin 0),
    DrawOp.LineTo (F64.fin imgSize) (F64.fin imgSize),
    DrawOp.LineTo (F64.fin 0) (F64.fin imgSize),
    DrawOp.Close,
    DrawOp.FillStroke,
    DrawOp.SetFillColor colorOcean,
    DrawOp.SetStrokeColor colorBlack,
    DrawOp.SetLineWidth 5,
    DrawOp.Translate (192 / 2) (192 / 2),
    DrawOp.Scale (imgSize / (2 * 6378137)) (-imgSize / (2 * 6378137)) ]

/-- The commands that prepare the land pass. -/
def landSetup : List DrawOp :=
  [ DrawOp.SetFillColor colorLand,
    DrawOp.SetStrokeColor colorBorder,
    DrawOp.SetLineWidth 5 ]

/-- The body of the sweep loop for the centre longitude `lon`: the paletted
frame, or the message of `log.Fatal`. -/
def renderFrame (deg2Rad : ℚ) (undef : F64 → Int) (env : Env) (features : List Feature)
    (lon : ℚ) : Except String Paletted :=
  match env.initOrtho lon with
  | some err => Except.error err
  | none =>
    match env.newTransformation lon with
    | some err => Except.error err
    | none =>
      match env.TransformPoints lon (buildGlobe deg2Rad lon) with
      | (_, some err) => Except.error err
      | (globe, none) =>
        match drawFeatures deg2Rad undef (env.TransformPoints lon) features
            (framePrologue ++ drawGlobe globe ++ landSetup) with
        | Except.error err => Except.error err
        | Except.ok gc => Except.ok { gc := gc }

/-- The loop `for lon := 360.; lon >= 0; lon -= 3`, entered at `lon` with the
frames `images` appended so far. -/
def sweep (deg2Rad : ℚ) (undef : F64 → Int) (env : Env) (features : List Feature)
    (lon : ℚ) (images : List Paletted) : Except String (List Paletted) :=
  if lon ≥ 0 then
    match renderFrame deg2Rad undef env features lon with
    | Except.error err => Except.error err
    | Except.ok paletted => sweep deg2Rad undef env features (lon - 3) (images ++ [paletted])
  else
    Except.ok images
termination_by (⌊lon⌋ + 1).toNat
decreasing_by
  have h1 : ⌊lon - 3⌋ = ⌊lon⌋ - 3 := by
    rw [show lon - 3 = lon - ((3 : ℤ) : ℚ) by push_cast; ring, Int.floor_sub_int]
  have h2 : 0 ≤ ⌊lon⌋ := Int.floor_nonneg.mpr (by linarith)
  omega

/-- The list `delays := make([]int, len(images))` with every entry set to 1. -/
def makeDelays (images : List Paletted) : List Int := List.replicate images.length 1

/-- The function `main`. -/
def main (deg2Rad : ℚ) (undef : F64 → Int) (env : Env) : Outcome :=
  if env.input.length = 0 then Outcome.fatal "Invalid input file" else
  match env.openFile with
  | some err => Outcome.fatal err
  | none =>
    match env.decodeCollection with
    | Except.error err => Outcome.fatal err
    | Except.ok features =>
      if features.length = 0 then Outcome.fatal "No feature found" else
      match env.initWGS84 with
      | some err => Outcome.fatal err
      | none =>
        match sweep deg2Rad undef env features 360 [] with
        | Except.error err => Outcome.fatal err
        | Except.ok images =>
          match env.create with
          | some err => Outcome.fatal err
          | none =>
            match env.encodeAll { Image := images, Delay := makeDelays images } with
            | some err => Outcome.fatal err
            | none => Outcome.written { Image := images, Delay := makeDelays images }

/-! ## Reference values for the statements -/

/-- The globe outline as the specification words it: the meridian `lon + 90`
from -90 to +90 inclusive, then the meridian `lon - 90` from +90 down to -90
inclusive, in steps of 5 degrees. -/
def globeOutlineClaimed (deg2Rad lon : ℚ) : List Point :=
  (List.range 37).map
      (fun (k : ℕ) => { X := F64.fin ((lon + 90) * deg2Rad), Y := F64.fin ((-90 + 5 * (k : ℚ)) * deg2Rad) })
    ++ (List.range 37).map
      (fun (k : ℕ) => { X := F64.fin ((lon - 90) * deg2Rad), Y := F64.fin ((90 - 5 * (k : ℚ)) * deg2Rad) })

/-- The centre longitudes the sweep loop goes through: 360, 357, ..., 0. -/
def sweepAngles : List ℚ := (List.range 121).map (fun (k : ℕ) => 360 - 3 * (k : ℚ))

/-- The stroke colour in force after a command list. -/
def currentStroke : List DrawOp → Option RGBA
  | [] => none
  | DrawOp.SetStrokeColor c :: ops => (currentStroke ops).or (some c)
  | _ :: ops => currentStroke ops

/-- The fill colour in force after a command list. -/
def currentFill : List DrawOp → Option RGBA
  | [] => none
  | DrawOp.SetFillColor c :: ops => (currentFill ops).or (some c)
  | _ :: ops => currentFill ops

/-- The line width in force after a command list. -/
def currentWidth : List DrawOp → Option ℚ
  | [] => none
  | DrawOp.SetLineWidth w :: ops => (currentWidth ops).or (some w)
  | _ :: ops => currentWidth ops

/-- A run in which `TransformPoints` fails on every batch of one point and on
no other: the collection has one feature, of one ring, of one point. -/
def ringFailureEnv : Env :=
  { input := "land.geojson"
    openFile := none
    decodeCollection := Except.ok [{ Geometry := Except.ok [[{ X := F64.fin 0, Y := F64.fin 0 }]] }]
    initWGS84 := none
    initOrtho := fun _ => none
    newTransformation := fun _ => none
    TransformPoints := fun _ points =>
      if points.length = 1 then (points, some "transform failed") else (points, none)
    create := none
    encodeAll := fun _ => none }

/-! # Theorems -/

open F64 DrawOp

/-! ## The ring-drawing loop: one iteration -/

theorem ringStep_sentinel (u : F64 → Int) (s : RingState) (p : Point)
    (h : isSentinel p = true) : ringStep u s p = s := by
  unfold isSentinel at h
  simp [ringStep, h]

theorem ringStep_first (u : F64 → Int) (s : RingState) (p : Point)
    (h : isSentinel p = false) (hs : s.bStarted = false) :
    ringStep u s p =
      { gc := s.gc ++ [MoveTo p.X p.Y], previousX := pixelX u p, previousY := pixelY u p,
        bStarted := true } := by
  unfold isSentinel at h
  simp [ringStep, h, hs]

theorem ringStep_same (u : F64 → Int) (s : RingState) (p : Point)
    (h : isSentinel p = false) (hs : s.bStarted = true)
    (hx : pixelX u p = s.previousX) (hy : pixelY u p = s.previousY) :
    ringStep u s p = s := by
  unfold isSentinel at h
  simp [ringStep, h, hs, hx, hy]

theorem ringStep_other (u : F64 → Int) (s : RingState) (p : Point)
    (h : isSentinel p = false) (hs : s.bStarted = true)
    (hk : ¬ (pixelX u p = s.previousX ∧ pixelY u p = s.previousY)) :
    ringStep u s p =
      { s with gc := s.gc ++ [LineTo p.X p.Y], previousX := pixelX u p,
               previousY := pixelY u p } := by
  unfold isSentinel at h
  have hk2 : (pixelX u p != s.previousX || pixelY u p != s.previousY) = true := by
    by_cases hx : pixelX u p = s.previousX
    · by_cases hy : pixelY u p = s.previousY
      · exact absurd ⟨hx, hy⟩ hk
      · simp [hy]
    · simp [hx]
  simp only [ringStep, h, hs, hk2]
  simp

theorem ringLoop_snoc (u : F64 → Int) (pts : List Point) (p : Point) :
    ringLoop u (pts ++ [p]) = ringStep u (ringLoop u pts) p := by
  simp [ringLoop, List.foldl_append]

theorem emittedPoints_append (a b : List DrawOp) :
    emittedPoints (a ++ b) = emittedPoints a ++ emittedPoints b := by
  induction a with
  | nil => rfl
  | cons op ops ih => cases op <;> simp [emittedPoints, ih]

theorem emittedPoints_pathOps (path : List Point) : emittedPoints (pathOps path) = path := by
  cases path with
  | nil => rfl
  | cons p rest =>
    have h : ∀ l : List Point, emittedPoints (l.map (fun q => LineTo q.X q.Y)) = l := by
      intro l
      induction l with
      | nil => rfl
      | cons q l ih => simp [emittedPoints, ih]
    simp [pathOps, emittedPoints, h]

theorem destutterAux_head {α : Type} (R : α → α → Prop) [DecidableRel R] (a : α) (l : List α) :
    ∃ t, l.destutter' R a = a :: t := by
  induction l with
  | nil => exact ⟨[], rfl⟩
  | cons b l ih =>
    by_cases h : R a b
    · exact ⟨l.destutter' R b, List.destutter'_cons_pos _ h⟩
    · rw [List.destutter'_cons_neg _ h]
      exact ih

/-- Sentinel entries leave no trace: the loop goes through a ring as through
the ring without them. -/
theorem foldl_ringStep_filter (u : F64 → Int) (pts : List Point) (s : RingState) :
    pts.foldl (ringStep u) s = (visiblePoints pts).foldl (ringStep u) s := by
  induction pts generalizing s with
  | nil => rfl
  | cons p rest ih =>
    cases h : isSentinel p
    · simp [visiblePoints, List.filter, h, ih]
    · simp [visiblePoints, List.filter, h, ringStep_sentinel u s p h, ih]

/-- Once started, the loop appends a `LineTo` for every point kept by
`destutter'` after the point `e` whose pixel is the current one. -/
theorem foldl_ringStep_started (u : F64 → Int) (pts : List Point) :
    ∀ (e : Point) (s : RingState), (∀ p ∈ pts, isSentinel p = false) →
      s.bStarted = true → s.previousX = pixelX u e → s.previousY = pixelY u e →
      (pts.foldl (ringStep u) s).bStarted = true ∧
      (pts.foldl (ringStep u) s).gc =
        s.gc ++ ((pts.destutter' (pixelNe u) e).tail.map (fun q => LineTo q.X q.Y)) := by
  induction pts with
  | nil => intro e s _ hs _ _; simp [hs]
  | cons p rest ih =>
    intro e s hall hs hx hy
    have hp : isSentinel p = false := hall p (List.mem_cons_self _ _)
    have hrest : ∀ q ∈ rest, isSentinel q = false := fun q hq => hall q (List.mem_cons_of_mem _ hq)
    by_cases hk : pixelX u p = s.previousX ∧ pixelY u p = s.previousY
    · have hne : ¬ pixelNe u e p := by
        unfold pixelNe
        rw [← hx, ← hy, hk.1, hk.2]
        simp
      rw [List.foldl_cons, ringStep_same u s p hp hs hk.1 hk.2, List.destutter'_cons_neg _ hne]
      exact ih e s hrest hs hx hy
    · have hne : pixelNe u e p := by
        unfold pixelNe
        rw [← hx, ← hy]
        intro h
        exact hk ⟨h.1.symm, h.2.symm⟩
      rw [List.foldl_cons, ringStep_other u s p hp hs hk, List.destutter'_cons_pos _ hne]
      have := ih p { s with gc := s.gc ++ [LineTo p.X p.Y], previousX := pixelX u p,
                            previousY := pixelY u p } hrest hs rfl rfl
      refine ⟨this.1, ?_⟩
      rw [this.2]
      obtain ⟨t, ht⟩ := destutterAux_head (pixelNe u) p rest
      rw [ht]
      simp


theorem mem_visiblePoints (pts : List Point) (p : Point) :
    p ∈ visiblePoints pts ↔ p ∈ pts ∧ isSentinel p = false := by
  simp [visiblePoints, List.mem_filter]

/-- The state at the exit of the loop, by the non-sentinel points of the ring. -/
theorem ringLoop_eq (u : F64 → Int) (pts : List Point) :
    (ringLoop u pts).bStarted = !(visiblePoints pts).isEmpty ∧
    (ringLoop u pts).gc = pathOps ((visiblePoints pts).destutter (pixelNe u)) := by
  unfold ringLoop
  rw [foldl_ringStep_filter]
  have hall : ∀ p ∈ visiblePoints pts, isSentinel p = false :=
    fun p hp => ((mem_visiblePoints pts p).1 hp).2
  cases hv : visiblePoints pts with
  | nil => simp [RingState.init, pathOps]
  | cons p rest =>
    rw [hv] at hall
    have hp : isSentinel p = false := hall p (List.mem_cons_self _ _)
    have hrest : ∀ q ∈ rest, isSentinel q = false := fun q hq => hall q (List.mem_cons_of_mem _ hq)
    rw [List.foldl_cons, ringStep_first u RingState.init p hp rfl]
    have := foldl_ringStep_started u rest p
      { gc := RingState.init.gc ++ [MoveTo p.X p.Y], previousX := pixelX u p,
        previousY := pixelY u p, bStarted := true } hrest rfl rfl rfl
    refine ⟨by simpa using this.1, ?_⟩
    rw [this.2, List.destutter_cons']
    obtain ⟨t, ht⟩ := destutterAux_head (pixelNe u) p rest
    rw [ht]
    simp [RingState.init, pathOps]

/-- The commands of a ring: nothing when every point is a sentinel, otherwise
one path over the non-sentinel points, pixel-identical neighbours collapsed. -/
theorem drawRing_eq (u : F64 → Int) (pts : List Point) :
    drawRing u pts =
      if (visiblePoints pts).isEmpty then []
      else pathOps ((visiblePoints pts).destutter (pixelNe u)) ++ [Close, FillStroke] := by
  unfold drawRing
  obtain ⟨h1, h2⟩ := ringLoop_eq u pts
  simp only [h1, h2]
  cases hv : visiblePoints pts with
  | nil => simp [pathOps]
  | cons p rest => simp

/-- After the loop has started, the last point given to the context is a
non-sentinel point of the ring, and `previousX`, `previousY` are its pixel. -/
theorem ringLoop_last (u : F64 → Int) (pts : List Point) :
    (ringLoop u pts).bStarted = true →
      ∃ E ∈ pts, isSentinel E = false ∧ lastEmitted (ringLoop u pts).gc = some E ∧
        (ringLoop u pts).previousX = pixelX u E ∧ (ringLoop u pts).previousY = pixelY u E := by
  induction pts using List.reverseRecOn with
  | nil => intro h; simp [ringLoop, RingState.init] at h
  | append_singleton pre p ih =>
    rw [ringLoop_snoc]
    intro hb
    cases hp : isSentinel p with
    | true =>
      rw [ringStep_sentinel u _ p hp] at hb ⊢
      obtain ⟨E, hE, h⟩ := ih hb
      exact ⟨E, List.mem_append_left _ hE, h⟩
    | false =>
      cases hs : (ringLoop u pre).bStarted with
      | false =>
        rw [ringStep_first u _ p hp hs]
        refine ⟨p, by simp, hp, ?_, rfl, rfl⟩
        simp [lastEmitted, emittedPoints_append, emittedPoints]
      | true =>
        by_cases hk : pixelX u p = (ringLoop u pre).previousX ∧
            pixelY u p = (ringLoop u pre).previousY
        · rw [ringStep_same u _ p hp hs hk.1 hk.2]
          obtain ⟨E, hE, h⟩ := ih hs
          exact ⟨E, List.mem_append_left _ hE, h⟩
        · rw [ringStep_other u _ p hp hs hk]
          refine ⟨p, by simp, hp, ?_, rfl, rfl⟩
          simp [lastEmitted, emittedPoints_append, emittedPoints]

theorem pixelX_fin (u : F64 → Int) (x : ℚ) (Y : F64) :
    pixelX u ⟨fin x, Y⟩ = truncQ (x * 192 / 6378137) := by
  simp [pixelX, F64.mul, F64.div, F64.toInt, imgSize]

theorem pixelY_fin (u : F64 → Int) (X : F64) (y : ℚ) :
    pixelY u ⟨X, fin y⟩ = truncQ (-y * 192 / 6378137) := by
  simp [pixelY, F64.mul, F64.div, F64.neg, F64.toInt, imgSize]

theorem pixelX_nan (u : F64 → Int) (Y : F64) : pixelX u ⟨nan, Y⟩ = u nan := by
  simp [pixelX, F64.mul, F64.div, F64.toInt]

theorem truncQ_bounds (q : ℚ) : (truncQ q : ℚ) - 1 < q ∧ q < (truncQ q : ℚ) + 1 := by
  unfold truncQ
  split
  · constructor
    · have := Int.floor_le q
      linarith
    · exact Int.lt_floor_add_one q
  · constructor
    · have := Int.ceil_lt_add_one q
      linarith
    · have := Int.le_ceil q
      linarith

theorem truncQ_eq_abs_lt (a b : ℚ) (h : truncQ a = truncQ b) : |a - b| < 2 := by
  obtain ⟨ha1, ha2⟩ := truncQ_bounds a
  obtain ⟨hb1, hb2⟩ := truncQ_bounds b
  rw [h] at ha1 ha2
  rw [abs_lt]
  constructor <;> linarith

theorem truncQ_intCast (z : ℤ) : truncQ (z : ℚ) = z := by
  unfold truncQ
  split <;> simp

theorem fin_of_not_nan_not_inf (v : F64) (h1 : v ≠ nan) (h2 : IsInf v = false) : ∃ q, v = fin q := by
  cases v with
  | fin q => exact ⟨q, rfl⟩
  | posInf => simp [IsInf] at h2
  | negInf => simp [IsInf] at h2
  | nan => exact absurd rfl h1

theorem truncQ_zero_of_abs_lt_one (q : ℚ) (h : |q| < 1) : truncQ q = 0 := by
  rw [abs_lt] at h
  unfold truncQ
  split
  · rw [Int.floor_eq_iff]; constructor <;> simp <;> linarith
  · rw [Int.ceil_eq_iff]; constructor <;> simp <;> linarith

theorem splitPaths_lineTos (l : List Point) :
    splitPaths (l.map (fun q => LineTo q.X q.Y) ++ [Close, FillStroke]) = (l, []) := by
  induction l with
  | nil => simp [splitPaths]
  | cons q l ih => simp [splitPaths, ih]

theorem subPaths_pathOps (p : Point) (rest : List Point) :
    subPaths (pathOps (p :: rest) ++ [Close, FillStroke]) = [p :: rest] := by
  simp [subPaths, pathOps, splitPaths, splitPaths_lineTos]

theorem visiblePoints_idem (pts : List Point) :
    visiblePoints (visiblePoints pts) = visiblePoints pts := by
  simp [visiblePoints, List.filter_filter]

theorem emittedPoints_drawRing (u : F64 → Int) (pts : List Point) :
    emittedPoints (drawRing u pts) = (visiblePoints pts).destutter (pixelNe u) := by
  rw [drawRing_eq]
  cases hv : visiblePoints pts with
  | nil => simp [emittedPoints]
  | cons p rest =>
    simp only [List.isEmpty_cons, Bool.false_eq_true, if_false]
    rw [emittedPoints_append, emittedPoints_pathOps]
    simp [emittedPoints]

/-- C1 (counterexample): on the ring `[P0, P1, sentinel, P2, P3]` with
`P0 = (0,0)`, `P1 = (6378137,0)`, `P2 = (0,6378137)`, `P3 = (6378137,6378137)`,
whose finite points fall in pairwise different pixels, the callback draws one
sub-path `[P0,P1,P2,P3]`, with a `LineTo` from `P1` to `P2` across the
sentinel, and not the two sub-paths `[P0,P1]` and `[P2,P3]` that cutting the
ring at the sentinel gives. -/
theorem drawRing_joins_across_sentinel :
    List.Pairwise (pixelNe (fun _ => 0))
      [⟨fin 0, fin 0⟩, ⟨fin 6378137, fin 0⟩, ⟨fin 0, fin 6378137⟩, ⟨fin 6378137, fin 6378137⟩] ∧
    drawRing (fun _ => 0)
      [⟨fin 0, fin 0⟩, ⟨fin 6378137, fin 0⟩, ⟨posInf, posInf⟩, ⟨fin 0, fin 6378137⟩,
        ⟨fin 6378137, fin 6378137⟩] =
      [MoveTo (fin 0) (fin 0), LineTo (fin 6378137) (fin 0), LineTo (fin 0) (fin 6378137),
        LineTo (fin 6378137) (fin 6378137), Close, FillStroke] ∧
    subPaths (drawRing (fun _ => 0)
      [⟨fin 0, fin 0⟩, ⟨fin 6378137, fin 0⟩, ⟨posInf, posInf⟩, ⟨fin 0, fin 6378137⟩,
        ⟨fin 6378137, fin 6378137⟩]) ≠
      [[⟨fin 0, fin 0⟩, ⟨fin 6378137, fin 0⟩], [⟨fin 0, fin 6378137⟩, ⟨fin 6378137, fin 6378137⟩]] ∧
    subPaths (drawRingSegmented (fun _ => 0)
      [⟨fin 0, fin 0⟩, ⟨fin 6378137, fin 0⟩, ⟨posInf, posInf⟩, ⟨fin 0, fin 6378137⟩,
        ⟨fin 6378137, fin 6378137⟩]) =
      [[⟨fin 0, fin 0⟩, ⟨fin 6378137, fin 0⟩], [⟨fin 0, fin 6378137⟩, ⟨fin 6378137, fin 6378137⟩]] := by
  have hd : drawRing (fun _ => 0)
      [⟨fin 0, fin 0⟩, ⟨fin 6378137, fin 0⟩, ⟨posInf, posInf⟩, ⟨fin 0, fin 6378137⟩,
        ⟨fin 6378137, fin 6378137⟩] =
      [MoveTo (fin 0) (fin 0), LineTo (fin 6378137) (fin 0), LineTo (fin 0) (fin 6378137),
        LineTo (fin 6378137) (fin 6378137), Close, FillStroke] := by
    simp [drawRing, ringLoop, ringStep, RingState.init, IsInf, pixelX_fin, pixelY_fin]
    norm_num [truncQ, Int.ceil_neg]
  have hs : drawRingSegmented (fun _ => 0)
      [⟨fin 0, fin 0⟩, ⟨fin 6378137, fin 0⟩, ⟨posInf, posInf⟩, ⟨fin 0, fin 6378137⟩,
        ⟨fin 6378137, fin 6378137⟩] =
      [MoveTo (fin 0) (fin 0), LineTo (fin 6378137) (fin 0), Close, FillStroke,
        MoveTo (fin 0) (fin 6378137), LineTo (fin 6378137) (fin 6378137), Close, FillStroke] := by
    simp [drawRingSegmented, List.splitOnP_cons, isSentinel, IsInf, List.modifyHead, pathOps,
      List.destutter, List.destutter', pixelNe, pixelX_fin, pixelY_fin]
    norm_num [truncQ, Int.ceil_neg]
  refine ⟨?_, hd, ?_, ?_⟩
  · simp [pixelNe, pixelX_fin, pixelY_fin]
    norm_num [truncQ, Int.ceil_neg]
  · rw [hd]
    simp [subPaths, splitPaths]
  · rw [hs]
    simp [subPaths, splitPaths]

/-- C1 (amended): the callback skips the sentinel entries and does not cut the
path at them. It issues for a ring the commands it issues for the ring without
its sentinel entries, which form at most one sub-path; for a ring
`[P0, P1, sentinel, P2, P3]` whose neighbouring finite points fall in different
pixels it draws exactly one sub-path, `[P0, P1, P2, P3]`. -/
theorem drawRing_skips_sentinels (u : F64 → Int) (ring : List Point) (P0 P1 S P2 P3 : Point)
    (hS : isSentinel S = true) (h0 : isSentinel P0 = false) (h1 : isSentinel P1 = false)
    (h2 : isSentinel P2 = false) (h3 : isSentinel P3 = false)
    (h01 : pixelNe u P0 P1) (h12 : pixelNe u P1 P2) (h23 : pixelNe u P2 P3) :
    drawRing u ring = drawRing u (visiblePoints ring) ∧
    (subPaths (drawRing u ring)).length ≤ 1 ∧
    drawRing u [P0, P1, S, P2, P3] =
      [MoveTo P0.X P0.Y, LineTo P1.X P1.Y, LineTo P2.X P2.Y, LineTo P3.X P3.Y, Close,
        FillStroke] ∧
    subPaths (drawRing u [P0, P1, S, P2, P3]) = [[P0, P1, P2, P3]] := by
  have hv : visiblePoints [P0, P1, S, P2, P3] = [P0, P1, P2, P3] := by
    simp [visiblePoints, List.filter, hS, h0, h1, h2, h3]
  have hd : drawRing u [P0, P1, S, P2, P3] =
      pathOps [P0, P1, P2, P3] ++ [Close, FillStroke] := by
    rw [drawRing_eq, hv]
    simp [List.destutter, List.destutter', h01, h12, h23]
  refine ⟨?_, ?_, ?_, ?_⟩
  · rw [drawRing_eq, drawRing_eq, visiblePoints_idem]
  · rw [drawRing_eq]
    cases hd : (visiblePoints ring).destutter (pixelNe u) with
    | nil =>
      have := (List.destutter_eq_nil (pixelNe u)).1 hd
      simp [this, subPaths, splitPaths]
    | cons p rest =>
      have hne : visiblePoints ring ≠ [] := by
        intro h
        rw [h] at hd
        simp at hd
      have : (visiblePoints ring).isEmpty = false := by
        cases hvr : visiblePoints ring with
        | nil => exact absurd hvr hne
        | cons a l => rfl
      simp only [this, Bool.false_eq_true, if_false]
      rw [subPaths_pathOps]
      simp
  · rw [hd]
    simp [pathOps]
  · rw [hd, subPaths_pathOps]

/-- C1 (witness): the amended statement at the ring `[(0,0), (-Inf,3), (6378137,0)]`
and at the five-point ring of the counterexample. -/
theorem drawRing_skips_sentinels_witness :
    drawRing (fun _ => 0)
        [⟨fin 0, fin 0⟩, ⟨negInf, fin 3⟩, ⟨fin 6378137, fin 0⟩] =
      drawRing (fun _ => 0)
        (visiblePoints [⟨fin 0, fin 0⟩, ⟨negInf, fin 3⟩, ⟨fin 6378137, fin 0⟩]) ∧
    (subPaths (drawRing (fun _ => 0)
        [⟨fin 0, fin 0⟩, ⟨negInf, fin 3⟩, ⟨fin 6378137, fin 0⟩])).length ≤ 1 ∧
    drawRing (fun _ => 0)
      [⟨fin 0, fin 0⟩, ⟨fin 6378137, fin 0⟩, ⟨posInf, posInf⟩, ⟨fin 0, fin 6378137⟩,
        ⟨fin 6378137, fin 6378137⟩] =
      [MoveTo (fin 0) (fin 0), LineTo (fin 6378137) (fin 0), LineTo (fin 0) (fin 6378137),
        LineTo (fin 6378137) (fin 6378137), Close, FillStroke] ∧
    subPaths (drawRing (fun _ => 0)
      [⟨fin 0, fin 0⟩, ⟨fin 6378137, fin 0⟩, ⟨posInf, posInf⟩, ⟨fin 0, fin 6378137⟩,
        ⟨fin 6378137, fin 6378137⟩]) =
      [[⟨fin 0, fin 0⟩, ⟨fin 6378137, fin 0⟩, ⟨fin 0, fin 6378137⟩,
        ⟨fin 6378137, fin 6378137⟩]] :=
  drawRing_skips_sentinels (fun _ => 0)
    [⟨fin 0, fin 0⟩, ⟨negInf, fin 3⟩, ⟨fin 6378137, fin 0⟩]
    ⟨fin 0, fin 0⟩ ⟨fin 6378137, fin 0⟩ ⟨posInf, posInf⟩ ⟨fin 0, fin 6378137⟩
    ⟨fin 6378137, fin 6378137⟩
    (by simp [isSentinel, IsInf]) (by simp [isSentinel, IsInf]) (by simp [isSentinel, IsInf])
    (by simp [isSentinel, IsInf]) (by simp [isSentinel, IsInf])
    (by simp [pixelNe, pixelX_fin, pixelY_fin]; norm_num [truncQ, Int.ceil_neg])
    (by simp [pixelNe, pixelX_fin, pixelY_fin]; norm_num [truncQ, Int.ceil_neg])
    (by simp [pixelNe, pixelX_fin, pixelY_fin]; norm_num [truncQ, Int.ceil_neg])

/-- C2 (counterexample): with `A = (0,0)` and `B = (0.0001,0.0001)`, both of
pixel `(0,0)`. In the ring `[A, sentinel, B]` the point `B` is the first
point of its run of consecutive finite points, and it is dropped: only `A` is
drawn, where cutting the ring at the sentinel draws `A` and `B`. In the ring
`[A, (NaN,0), B]`, on a platform where `int(NaN)` is the least `int64`, `B`
follows the finite point `A` of the same pixel, and it is drawn. -/
theorem drawRing_run_across_skipped_entry :
    pixelX (fun _ => 0) ⟨fin 0, fin 0⟩ = pixelX (fun _ => 0) ⟨fin (1 / 10000), fin (1 / 10000)⟩ ∧
    pixelY (fun _ => 0) ⟨fin 0, fin 0⟩ = pixelY (fun _ => 0) ⟨fin (1 / 10000), fin (1 / 10000)⟩ ∧
    emittedPoints (drawRing (fun _ => 0)
      [⟨fin 0, fin 0⟩, ⟨posInf, posInf⟩, ⟨fin (1 / 10000), fin (1 / 10000)⟩]) =
      [⟨fin 0, fin 0⟩] ∧
    emittedPoints (drawRingSegmented (fun _ => 0)
      [⟨fin 0, fin 0⟩, ⟨posInf, posInf⟩, ⟨fin (1 / 10000), fin (1 / 10000)⟩]) =
      [⟨fin 0, fin 0⟩, ⟨fin (1 / 10000), fin (1 / 10000)⟩] ∧
    emittedPoints (drawRing (fun _ => -9223372036854775808)
      [⟨fin 0, fin 0⟩, ⟨nan, fin 0⟩, ⟨fin (1 / 10000), fin (1 / 10000)⟩]) =
      [⟨fin 0, fin 0⟩, ⟨nan, fin 0⟩, ⟨fin (1 / 10000), fin (1 / 10000)⟩] := by
  refine ⟨?_, ?_, ?_, ?_, ?_⟩
  · simp [pixelX_fin]
    norm_num [truncQ, Int.ceil_neg]
  · simp [pixelY_fin]
    norm_num [truncQ, Int.ceil_neg]
  · have hd : drawRing (fun _ => 0)
        [⟨fin 0, fin 0⟩, ⟨posInf, posInf⟩, ⟨fin (1 / 10000), fin (1 / 10000)⟩] =
        [MoveTo (fin 0) (fin 0), Close, FillStroke] := by
      simp [drawRing, ringLoop, ringStep, RingState.init, IsInf, pixelX_fin, pixelY_fin]
      norm_num [truncQ, Int.ceil_neg]
    rw [hd]
    rfl
  · simp [drawRingSegmented, List.splitOnP_cons, isSentinel, IsInf, List.modifyHead, pathOps,
      List.destutter, List.destutter', pixelNe, pixelX_fin, pixelY_fin, emittedPoints]
  · have hd : drawRing (fun _ => -9223372036854775808)
        [⟨fin 0, fin 0⟩, ⟨nan, fin 0⟩, ⟨fin (1 / 10000), fin (1 / 10000)⟩] =
        [MoveTo (fin 0) (fin 0), LineTo nan (fin 0), LineTo (fin (1 / 10000)) (fin (1 / 10000)),
          Close, FillStroke] := by
      simp [drawRing, ringLoop, ringStep, RingState.init, IsInf, pixelX_fin, pixelY_fin,
        pixelX_nan]
      norm_num [truncQ, Int.ceil_neg]
    rw [hd]
    rfl

/-- C2 (amended): the runs are taken among the points the loop does not skip,
in ring order, a skipped sentinel entry ending no run. The points given to
`MoveTo` and `LineTo` for a ring are its non-sentinel points, of which every
point that falls in the pixel of the point kept before it is dropped. For the
ring `[(0,0), (0.0001,0.0001)]` the drawn path contains only `(0,0)`. -/
theorem drawRing_collapses_pixel_runs (u : F64 → Int) (ring : List Point) :
    emittedPoints (drawRing u ring) = (visiblePoints ring).destutter (pixelNe u) ∧
    emittedPoints (drawRing u [⟨fin 0, fin 0⟩, ⟨fin (1 / 10000), fin (1 / 10000)⟩]) =
      [⟨fin 0, fin 0⟩] := by
  refine ⟨emittedPoints_drawRing u ring, ?_⟩
  have hd : drawRing u [⟨fin 0, fin 0⟩, ⟨fin (1 / 10000), fin (1 / 10000)⟩] =
      [MoveTo (fin 0) (fin 0), Close, FillStroke] := by
    simp [drawRing, ringLoop, ringStep, RingState.init, IsInf, pixelX_fin, pixelY_fin]
    norm_num [truncQ, Int.ceil_neg]
  rw [hd]
  rfl

/-- C3 (counterexample): the outline emission passes a point with an infinite
coordinate to `LineTo`, and the ring callback passes a point with a NaN
coordinate to `MoveTo`. -/
theorem nonfinite_point_drawn :
    drawGlobe [⟨fin 0, fin 0⟩, ⟨posInf, posInf⟩] =
      [MoveTo (fin 0) (fin 0), LineTo posInf posInf, Close, FillStroke] ∧
    drawRing (fun _ => 0) [⟨nan, fin 0⟩] = [MoveTo nan (fin 0), Close, FillStroke] := by
  constructor
  · simp [drawGlobe, pathOps]
  · simp [drawRing, ringLoop, ringStep, RingState.init, IsInf]

/-- C3 (amended): for every feature ring, a projected point with an infinite
coordinate on either axis is never passed to `MoveTo` or `LineTo`. -/
theorem drawRing_no_infinite_point (u : F64 → Int) (ring : List Point) (p : Point)
    (hp : p ∈ emittedPoints (drawRing u ring)) :
    p ∈ ring ∧ IsInf p.X = false ∧ IsInf p.Y = false := by
  rw [emittedPoints_drawRing] at hp
  have hv := (List.destutter_sublist (pixelNe u) (visiblePoints ring)).subset hp
  obtain ⟨hmem, hs⟩ := (mem_visiblePoints ring p).1 hv
  unfold isSentinel at hs
  simp only [Bool.or_eq_false_iff] at hs
  exact ⟨hmem, hs.1, hs.2⟩

/-- C3 (witness): the point `(5,7)` drawn for the ring
`[(+Inf,1), (5,7), (2,-Inf)]`. -/
theorem drawRing_no_infinite_point_witness :
    (⟨fin 5, fin 7⟩ : Point) ∈ [⟨posInf, fin 1⟩, ⟨fin 5, fin 7⟩, ⟨fin 2, negInf⟩] ∧
      IsInf (fin 5) = false ∧ IsInf (fin 7) = false :=
  drawRing_no_infinite_point (fun _ => 0) [⟨posInf, fin 1⟩, ⟨fin 5, fin 7⟩, ⟨fin 2, negInf⟩]
    ⟨fin 5, fin 7⟩
    (by simp [drawRing, ringLoop, ringStep, RingState.init, IsInf, emittedPoints])

/-- C8: a ring in which every point is a sentinel (the empty ring too) makes
the callback issue no command at all; a ring with a point that is not a
sentinel makes it issue one `MoveTo`, as first command, then only `LineTo`
commands, then `Close` followed by `FillStroke`. -/
theorem drawRing_nothing_or_one_path (u : F64 → Int) (ring : List Point) :
    ((∀ p ∈ ring, isSentinel p = true) → drawRing u ring = []) ∧
    ((∃ p ∈ ring, isSentinel p = false) →
      ∃ p0 ∈ ring, ∃ rest : List Point, isSentinel p0 = false ∧
        drawRing u ring =
          MoveTo p0.X p0.Y :: rest.map (fun q => LineTo q.X q.Y) ++ [Close, FillStroke]) := by
  constructor
  · intro h
    have hv : visiblePoints ring = [] := by
      simp only [visiblePoints, List.filter_eq_nil_iff]
      intro p hp
      simp [h p hp]
    rw [drawRing_eq, hv]
    rfl
  · rintro ⟨p, hp, hs⟩
    have hmem : p ∈ visiblePoints ring := (mem_visiblePoints ring p).2 ⟨hp, hs⟩
    cases hv : visiblePoints ring with
    | nil => rw [hv] at hmem; simp at hmem
    | cons p0 tl =>
      have h0 : p0 ∈ visiblePoints ring := by rw [hv]; exact List.mem_cons_self _ _
      obtain ⟨h0r, h0s⟩ := (mem_visiblePoints ring p0).1 h0
      obtain ⟨t, ht⟩ := destutterAux_head (pixelNe u) p0 tl
      refine ⟨p0, h0r, t, h0s, ?_⟩
      rw [drawRing_eq, hv, List.destutter_cons', ht]
      simp [pathOps]

/-- C8 (witness): nothing is issued for `[(+Inf,0), (0,-Inf)]`, one path for
`[(+Inf,0), (1,2)]`. -/
theorem drawRing_nothing_or_one_path_witness :
    drawRing (fun _ => 0) [⟨posInf, fin 0⟩, ⟨fin 0, negInf⟩] = [] ∧
    ∃ p0 ∈ [(⟨posInf, fin 0⟩ : Point), ⟨fin 1, fin 2⟩], ∃ rest : List Point,
      isSentinel p0 = false ∧
      drawRing (fun _ => 0) [⟨posInf, fin 0⟩, ⟨fin 1, fin 2⟩] =
        MoveTo p0.X p0.Y :: rest.map (fun q => LineTo q.X q.Y) ++ [Close, FillStroke] :=
  ⟨(drawRing_nothing_or_one_path (fun _ => 0) [⟨posInf, fin 0⟩, ⟨fin 0, negInf⟩]).1
      (by simp [isSentinel, IsInf]),
    (drawRing_nothing_or_one_path (fun _ => 0) [⟨posInf, fin 0⟩, ⟨fin 1, fin 2⟩]).2
      ⟨⟨fin 1, fin 2⟩, by simp, by simp [isSentinel, IsInf]⟩⟩

/-- C10: with `int()` the truncation toward zero of a real number and every
coordinate met so far a real number or an infinity, a finite point `(x, y)`
that the suppression test drops (the loop has started and both pixel keys equal
`previousX`, `previousY`) leaves the state unchanged, and the point most
recently given to the context is a finite point within less than one canvas
pixel of it on each axis under the drawing transform. -/
theorem dropped_point_within_one_pixel (u : F64 → Int) (pre : List Point) (x y : ℚ)
    (hreal : ∀ p ∈ pre, p.X ≠ nan ∧ p.Y ≠ nan)
    (hs : (ringLoop u pre).bStarted = true)
    (hx : pixelX u ⟨fin x, fin y⟩ = (ringLoop u pre).previousX)
    (hy : pixelY u ⟨fin x, fin y⟩ = (ringLoop u pre).previousY) :
    ringLoop u (pre ++ [⟨fin x, fin y⟩]) = ringLoop u pre ∧
    ∃ ex ey : ℚ, lastEmitted (ringLoop u pre).gc = some ⟨fin ex, fin ey⟩ ∧
      |canvasX x - canvasX ex| < 1 ∧ |canvasY y - canvasY ey| < 1 := by
  constructor
  · rw [ringLoop_snoc]
    exact ringStep_same u _ _ (by simp [isSentinel, IsInf]) hs hx hy
  · obtain ⟨E, hE, hsent, hlast, hpx, hpy⟩ := ringLoop_last u pre hs
    unfold isSentinel at hsent
    simp only [Bool.or_eq_false_iff] at hsent
    obtain ⟨ex, hex⟩ := fin_of_not_nan_not_inf E.X (hreal E hE).1 hsent.1
    obtain ⟨ey, hey⟩ := fin_of_not_nan_not_inf E.Y (hreal E hE).2 hsent.2
    have hEeq : E = ⟨fin ex, fin ey⟩ := by
      cases E
      simp_all
    subst hEeq
    rw [hpx, pixelX_fin, pixelX_fin] at hx
    rw [hpy, pixelY_fin, pixelY_fin] at hy
    have h1 := truncQ_eq_abs_lt _ _ hx
    have h2 := truncQ_eq_abs_lt _ _ hy
    refine ⟨ex, ey, hlast, ?_, ?_⟩
    · rw [abs_lt] at h1 ⊢
      unfold canvasX imgSize
      constructor <;> linarith [h1.1, h1.2]
    · rw [abs_lt] at h2 ⊢
      unfold canvasY imgSize
      constructor <;> linarith [h2.1, h2.2]

/-- C10 (witness): the point `(0.0001, 0.0001)` dropped after `(0,0)`. -/
theorem dropped_point_within_one_pixel_witness :
    ringLoop (fun _ => 0) ([⟨fin 0, fin 0⟩] ++ [⟨fin (1 / 10000), fin (1 / 10000)⟩]) =
      ringLoop (fun _ => 0) [⟨fin 0, fin 0⟩] ∧
    ∃ ex ey : ℚ, lastEmitted (ringLoop (fun _ => 0) [⟨fin 0, fin 0⟩]).gc = some ⟨fin ex, fin ey⟩ ∧
      |canvasX (1 / 10000) - canvasX ex| < 1 ∧ |canvasY (1 / 10000) - canvasY ey| < 1 :=
  dropped_point_within_one_pixel (fun _ => 0) [⟨fin 0, fin 0⟩] (1 / 10000) (1 / 10000)
    (by simp)
    (by simp [ringLoop, ringStep, RingState.init, IsInf])
    (by
      simp [ringLoop, ringStep, RingState.init, IsInf, pixelX_fin]
      norm_num [truncQ, Int.ceil_neg])
    (by
      simp [ringLoop, ringStep, RingState.init, IsInf, pixelY_fin]
      norm_num [truncQ, Int.ceil_neg])

/-! ## The globe outline -/

theorem globeUp_run (d lon : ℚ) (n : ℕ) :
    ∀ (i : ℚ) (g : List Point), i = 90 - 5 * (n : ℚ) →
      globeUp d lon i g =
        g ++ (List.range (n + 1)).map
          (fun (k : ℕ) => { X := fin ((lon + 90) * d), Y := fin ((i + 5 * (k : ℚ)) * d) }) := by
  induction n with
  | zero =>
    intro i g hi
    simp only [Nat.cast_zero, mul_zero, sub_zero] at hi
    subst hi
    rw [globeUp, if_pos (le_refl _), globeUp, if_neg (by norm_num)]
    simp [List.range_succ]
  | succ n ih =>
    intro i g hi
    have hle : i ≤ 90 := by
      rw [hi]
      have : (0 : ℚ) ≤ ((n + 1 : ℕ) : ℚ) := Nat.cast_nonneg _
      linarith
    rw [globeUp, if_pos hle, ih (i + 5) _ (by rw [hi]; push_cast; ring)]
    rw [List.range_succ_eq_map (n + 1), List.map_cons, List.map_map, List.append_assoc]
    congr 1
    simp only [List.singleton_append, Nat.cast_zero, mul_zero, add_zero]
    congr 1
    apply List.map_congr_left
    intro k _
    simp only [Function.comp, Nat.cast_succ]
    congr 2
    ring

theorem globeDown_run (d lon : ℚ) (n : ℕ) :
    ∀ (i : ℚ) (g : List Point), i = -90 + 5 * (n : ℚ) →
      globeDown d lon i g =
        g ++ (List.range n).map
          (fun (k : ℕ) => { X := fin ((lon - 90) * d), Y := fin ((i - 5 * (k : ℚ)) * d) }) := by
  induction n with
  | zero =>
    intro i g hi
    simp only [Nat.cast_zero, mul_zero, add_zero] at hi
    subst hi
    rw [globeDown, if_neg (by norm_num)]
    simp
  | succ n ih =>
    intro i g hi
    have hgt : i > -90 := by
      rw [hi]
      have : (0 : ℚ) ≤ (n : ℚ) := Nat.cast_nonneg _
      push_cast
      linarith
    rw [globeDown, if_pos hgt, ih (i - 5) _ (by rw [hi]; push_cast; ring)]
    rw [List.range_succ_eq_map n, List.map_cons, List.map_map, List.append_assoc]
    congr 1
    simp only [List.singleton_append, Nat.cast_zero, mul_zero, sub_zero]
    congr 1
    apply List.map_congr_left
    intro k _
    simp only [Function.comp, Nat.cast_succ]
    congr 2
    ring

/-- The outline before projection, point by point. -/
theorem buildGlobe_eq (d lon : ℚ) :
    buildGlobe d lon =
      (List.range 37).map
          (fun (k : ℕ) => { X := fin ((lon + 90) * d), Y := fin ((-90 + 5 * (k : ℚ)) * d) })
        ++ (List.range 36).map
          (fun (k : ℕ) => { X := fin ((lon - 90) * d), Y := fin ((90 - 5 * (k : ℚ)) * d) }) := by
  unfold buildGlobe
  rw [globeUp_run d lon 36 (-90) [] (by norm_num), globeDown_run d lon 36 90 _ (by norm_num)]
  simp

theorem buildGlobe_length (d lon : ℚ) : (buildGlobe d lon).length = 73 := by
  rw [buildGlobe_eq]
  simp

/-- C6 (counterexample): at the first angle of the sweep, 360, the outline
built before projection has 73 points, not 181. -/
theorem globe_outline_not_181 :
    (buildGlobe (17453292519943295 / 1000000000000000000) 360).length = 73 ∧
    (buildGlobe (17453292519943295 / 1000000000000000000) 360).length ≠ 181 := by
  rw [buildGlobe_length]
  exact ⟨rfl, by decide⟩

/-- C6 (amended): for every rotation angle the globe-outline ring built before
projection has the same number of points, and that number is 73: the 37
latitudes -90, -85, ..., 90 on one meridian and the 36 latitudes
90, 85, ..., -85 on the other. -/
theorem globe_outline_has_73_points (deg2Rad lon lon2 : ℚ) :
    (buildGlobe deg2Rad lon).length = 73 ∧
    (buildGlobe deg2Rad lon).length = (buildGlobe deg2Rad lon2).length := by
  rw [buildGlobe_length, buildGlobe_length]
  exact ⟨rfl, rfl⟩

/-- C7 (counterexample): at the angle 360 the outline is not the claimed list,
which ends at latitude -90 on the meridian `lon - 90`: it has 73 points where
the claimed list has 74, and its last point is the one of latitude -85. -/
theorem globe_outline_stops_before_south_pole :
    buildGlobe (17453292519943295 / 1000000000000000000) 360 ≠
      globeOutlineClaimed (17453292519943295 / 1000000000000000000) 360 ∧
    (globeOutlineClaimed (17453292519943295 / 1000000000000000000) 360).length = 74 ∧
    (buildGlobe (17453292519943295 / 1000000000000000000) 360).length = 73 ∧
    (buildGlobe (17453292519943295 / 1000000000000000000) 360).getLast? =
      some ⟨fin ((360 - 90) * (17453292519943295 / 1000000000000000000)),
        fin (-85 * (17453292519943295 / 1000000000000000000))⟩ := by
  have h74 : (globeOutlineClaimed (17453292519943295 / 1000000000000000000) 360).length = 74 := by
    simp [globeOutlineClaimed]
  refine ⟨?_, h74, buildGlobe_length _ _, ?_⟩
  · intro h
    have := congrArg List.length h
    rw [h74, buildGlobe_length] at this
    exact absurd this (by decide)
  · have h36 : List.range 36 = List.range 35 ++ [35] := List.range_succ 35
    rw [buildGlobe_eq, h36, List.map_append, ← List.append_assoc]
    simp only [List.map_cons, List.map_nil, List.getLast?_concat]
    norm_num

/-- C7 (amended): for every rotation angle the globe-outline ring is, in
order, the points of longitude `lon + 90` with latitude rising from -90 to
+90 inclusive in steps of 5, followed by the points of longitude `lon - 90`
with latitude falling from +90 down to -85 inclusive in steps of 5 (the
latitude -90 is not repeated), every coordinate multiplied by `deg2Rad`. -/
theorem globe_outline_points (deg2Rad lon : ℚ) :
    buildGlobe deg2Rad lon =
      (List.range 37).map
          (fun (k : ℕ) => { X := fin ((lon + 90) * deg2Rad), Y := fin ((-90 + 5 * (k : ℚ)) * deg2Rad) })
        ++ (List.range 36).map
          (fun (k : ℕ) => { X := fin ((lon - 90) * deg2Rad), Y := fin ((90 - 5 * (k : ℚ)) * deg2Rad) }) :=
  buildGlobe_eq deg2Rad lon

/-! ## The program -/

theorem drawFeatures_ok (d : ℚ) (u : F64 → Int) (tp : List Point → List Point × Option String)
    (features : List Feature) :
    ∀ gc : List DrawOp, (∀ f ∈ features, ∃ g, f.Geometry = Except.ok g) →
      ∃ rest, drawFeatures d u tp features gc = Except.ok (gc ++ rest) := by
  induction features with
  | nil => intro gc _; exact ⟨[], by simp [drawFeatures]⟩
  | cons f fs ih =>
    intro gc h
    obtain ⟨g, hg⟩ := h f (List.mem_cons_self _ _)
    obtain ⟨rest, hrest⟩ := ih (gc ++ drawRings u (projectRings d tp g).1)
      (fun f2 hf2 => h f2 (List.mem_cons_of_mem _ hf2))
    refine ⟨drawRings u (projectRings d tp g).1 ++ rest, ?_⟩
    simp only [drawFeatures, hg]
    rw [hrest, List.append_assoc]

theorem renderFrame_ok (d : ℚ) (u : F64 → Int) (env : Env) (features : List Feature) (lon : ℚ)
    (h1 : env.initOrtho lon = none) (h2 : env.newTransformation lon = none)
    (h3 : (env.TransformPoints lon (buildGlobe d lon)).2 = none)
    (h4 : ∀ f ∈ features, ∃ g, f.Geometry = Except.ok g) :
    ∃ rest, renderFrame d u env features lon =
      Except.ok { gc := framePrologue ++ drawGlobe (env.TransformPoints lon (buildGlobe d lon)).1
        ++ landSetup ++ rest } := by
  obtain ⟨rest, hrest⟩ := drawFeatures_ok d u (env.TransformPoints lon) features
    (framePrologue ++ drawGlobe (env.TransformPoints lon (buildGlobe d lon)).1 ++ landSetup) h4
  refine ⟨rest, ?_⟩
  unfold renderFrame
  rw [h1, h2]
  cases hT : env.TransformPoints lon (buildGlobe d lon) with
  | mk globe e =>
    rw [hT] at h3 hrest
    simp only at h3 hrest
    subst h3
    simp only [hrest]

theorem sweep_ok (d : ℚ) (u : F64 → Int) (env : Env) (features : List Feature) (n : ℕ) :
    ∀ (lon : ℚ) (images : List Paletted), lon = 3 * (n : ℚ) →
      (∀ k : ℕ, k ≤ n → ∃ p, renderFrame d u env features (3 * (k : ℚ)) = Except.ok p) →
      ∃ frames, sweep d u env features lon images = Except.ok (images ++ frames) ∧
        frames.map Except.ok =
          (List.range (n + 1)).map (fun (k : ℕ) => renderFrame d u env features (lon - 3 * (k : ℚ))) := by
  induction n with
  | zero =>
    intro lon images hlon h
    simp only [Nat.cast_zero, mul_zero] at hlon
    subst hlon
    obtain ⟨p, hp⟩ := h 0 (le_refl _)
    simp only [Nat.cast_zero, mul_zero] at hp
    refine ⟨[p], ?_, by simp [List.range_succ, hp]⟩
    rw [sweep, if_pos (le_refl _)]
    simp only [hp]
    rw [sweep, if_neg (by norm_num)]
  | succ n ih =>
    intro lon images hlon h
    obtain ⟨p, hp⟩ := h (n + 1) (le_refl _)
    rw [← hlon] at hp
    have hge : lon ≥ 0 := by
      rw [hlon]
      positivity
    obtain ⟨frames, hfr, hmap⟩ := ih (lon - 3) (images ++ [p]) (by rw [hlon]; push_cast; ring)
      (fun k hk => h k (Nat.le_succ_of_le hk))
    refine ⟨p :: frames, ?_, ?_⟩
    · rw [sweep, if_pos hge]
      simp only [hp]
      rw [hfr]
      simp
    · rw [List.range_succ_eq_map (n + 1), List.map_cons, List.map_cons, List.map_map, hmap]
      simp only [Nat.cast_zero, mul_zero, sub_zero, hp]
      congr 1
      apply List.map_congr_left
      intro k _
      simp only [Function.comp, Nat.cast_succ]
      congr 1
      ring

theorem mem_sweepAngles (k : ℕ) (hk : k ≤ 120) : 3 * (k : ℚ) ∈ sweepAngles := by
  unfold sweepAngles
  rw [List.mem_map]
  refine ⟨(120 - k : ℕ), ?_, ?_⟩
  · rw [List.mem_range]
    omega
  rw [Nat.cast_sub hk]
  push_cast
  ring

/-- A run in which no call but `TransformPoints` on a feature ring fails ends
with one frame per angle of the sweep encoded. -/
theorem main_written (d : ℚ) (u : F64 → Int) (env : Env) (features : List Feature)
    (hin : env.input.length ≠ 0) (hopen : env.openFile = none)
    (hdec : env.decodeCollection = Except.ok features) (hfeat : features.length ≠ 0)
    (hwgs : env.initWGS84 = none)
    (hortho : ∀ lon ∈ sweepAngles, env.initOrtho lon = none)
    (htransfo : ∀ lon ∈ sweepAngles, env.newTransformation lon = none)
    (hglobe : ∀ lon ∈ sweepAngles, (env.TransformPoints lon (buildGlobe d lon)).2 = none)
    (hgeom : ∀ f ∈ features, ∃ g, f.Geometry = Except.ok g)
    (hcreate : env.create = none) (henc : ∀ g, env.encodeAll g = none) :
    ∃ images : List Paletted,
      images.map Except.ok = sweepAngles.map (renderFrame d u env features) ∧
      images.length = 121 ∧
      main d u env = Outcome.written { Image := images, Delay := List.replicate 121 1 } := by
  obtain ⟨frames, hfr, hmap⟩ := sweep_ok d u env features 120 360 [] (by norm_num)
    (fun k hk => by
      have hm := mem_sweepAngles k hk
      obtain ⟨rest, hrest⟩ := renderFrame_ok d u env features (3 * (k : ℚ)) (hortho _ hm)
        (htransfo _ hm) (hglobe _ hm) hgeom
      exact ⟨_, hrest⟩)
  have hlen : frames.length = 121 := by
    have := congrArg List.length hmap
    simpa using this
  refine ⟨frames, ?_, hlen, ?_⟩
  · rw [hmap]
    simp [sweepAngles, List.map_map, Function.comp]
  · unfold main
    rw [if_neg hin, hopen, hdec]
    simp only [if_neg hfeat, hwgs, hfr, hcreate, henc, List.nil_append, makeDelays, hlen]

theorem drawFeatures_extends (d : ℚ) (u : F64 → Int)
    (tp : List Point → List Point × Option String) (features : List Feature) :
    ∀ gc gc2 : List DrawOp, drawFeatures d u tp features gc = Except.ok gc2 →
      ∃ rest, gc2 = gc ++ rest := by
  induction features with
  | nil =>
    intro gc gc2 h
    simp only [drawFeatures, Except.ok.injEq] at h
    exact ⟨[], by simp [h]⟩
  | cons f fs ih =>
    intro gc gc2 h
    cases hg : f.Geometry with
    | error e => simp [drawFeatures, hg] at h
    | ok g =>
      simp only [drawFeatures, hg] at h
      obtain ⟨rest, hrest⟩ := ih _ _ h
      exact ⟨drawRings u (projectRings d tp g).1 ++ rest, by rw [hrest, List.append_assoc]⟩

/-- Every frame starts with the prologue, the outline and the land set-up. -/
theorem renderFrame_shape (d : ℚ) (u : F64 → Int) (env : Env) (features : List Feature)
    (lon : ℚ) (p : Paletted) (h : renderFrame d u env features lon = Except.ok p) :
    ∃ globe rest, p.gc = framePrologue ++ drawGlobe globe ++ landSetup ++ rest := by
  unfold renderFrame at h
  cases h1 : env.initOrtho lon with
  | some e => simp [h1] at h
  | none =>
    cases h2 : env.newTransformation lon with
    | some e => simp [h1, h2] at h
    | none =>
      cases hT : env.TransformPoints lon (buildGlobe d lon) with
      | mk globe e =>
        cases e with
        | some err => simp [h1, h2, hT] at h
        | none =>
          cases hF : drawFeatures d u (env.TransformPoints lon) features
              (framePrologue ++ drawGlobe globe ++ landSetup) with
          | error err =>
            simp only [h1, h2, hT] at h
            rw [hF] at h
            simp at h
          | ok gc =>
            simp only [h1, h2, hT] at h
            rw [hF] at h
            simp only [Except.ok.injEq] at h
            obtain ⟨rest, hrest⟩ := drawFeatures_extends d u _ features _ _ hF
            exact ⟨globe, rest, by rw [← h, hrest]⟩

/-- C4 (the code at the failing input): in the run `ringFailureEnv`, where
`TransformPoints` fails on the ring of the feature in every frame, the first
`g.Iterate` returns the error, and the run goes on all the same: 121 frames
are appended and the animation is encoded. -/
theorem ring_transform_failure_ignored (d : ℚ) (u : F64 → Int) :
    (projectRings d (ringFailureEnv.TransformPoints 360) [[⟨fin 0, fin 0⟩]]).2 =
      some "transform failed" ∧
    ∃ images : List Paletted, images.length = 121 ∧
      main d u ringFailureEnv =
        Outcome.written { Image := images, Delay := List.replicate 121 1 } := by
  constructor
  · simp [projectRings, ringFailureEnv, toRadians]
  · obtain ⟨images, _, hlen, hmain⟩ := main_written d u ringFailureEnv
      [{ Geometry := Except.ok [[{ X := fin 0, Y := fin 0 }]] }]
      (by decide) rfl rfl (by simp) rfl (fun _ _ => rfl) (fun _ _ => rfl)
      (fun lon _ => by simp [ringFailureEnv, buildGlobe_length])
      (fun f hf => by
        simp only [List.mem_singleton] at hf
        subst hf
        exact ⟨_, rfl⟩)
      rfl (fun _ => rfl)
    exact ⟨images, hlen, hmain⟩

/-- C5: on a run in which no stage fails, the sweep appends exactly one
paletted frame per angle 360, 357, ..., 0, in that order, so the animation
holds 121 frames; the delay list handed to the encoder has the length of the
frame list and every delay is 1. -/
theorem main_encodes_121_frames (deg2Rad : ℚ) (undef : F64 → Int) (env : Env)
    (features : List Feature)
    (hin : env.input.length ≠ 0) (hopen : env.openFile = none)
    (hdec : env.decodeCollection = Except.ok features) (hfeat : features.length ≠ 0)
    (hwgs : env.initWGS84 = none)
    (hortho : ∀ lon ∈ sweepAngles, env.initOrtho lon = none)
    (htransfo : ∀ lon ∈ sweepAngles, env.newTransformation lon = none)
    (hglobe : ∀ lon ∈ sweepAngles,
      (env.TransformPoints lon (buildGlobe deg2Rad lon)).2 = none)
    (hgeom : ∀ f ∈ features, ∃ g, f.Geometry = Except.ok g)
    (hcreate : env.create = none) (henc : ∀ g, env.encodeAll g = none) :
    ∃ g : GIF, main deg2Rad undef env = Outcome.written g ∧
      g.Image.map Except.ok = sweepAngles.map (renderFrame deg2Rad undef env features) ∧
      sweepAngles.length = 121 ∧
      g.Image.length = 121 ∧ g.Delay.length = g.Image.length ∧ ∀ t ∈ g.Delay, t = 1 := by
  obtain ⟨images, hmap, hlen, hmain⟩ := main_written deg2Rad undef env features hin hopen hdec
    hfeat hwgs hortho htransfo hglobe hgeom hcreate henc
  refine ⟨_, hmain, hmap, by simp [sweepAngles], hlen, by simp [hlen], ?_⟩
  intro t ht
  exact (List.mem_replicate.1 ht).2

/-- C5 (witness): an environment in which nothing fails, with one feature of
one ring. -/
theorem main_encodes_121_frames_witness :
    ∃ g : GIF,
      main (17453292519943295 / 1000000000000000000) (fun _ => 0)
        { ringFailureEnv with TransformPoints := fun _ points => (points, none) } =
        Outcome.written g ∧
      g.Image.map Except.ok =
        sweepAngles.map (renderFrame (17453292519943295 / 1000000000000000000) (fun _ => 0)
          { ringFailureEnv with TransformPoints := fun _ points => (points, none) }
          [{ Geometry := Except.ok [[{ X := fin 0, Y := fin 0 }]] }]) ∧
      sweepAngles.length = 121 ∧
      g.Image.length = 121 ∧ g.Delay.length = g.Image.length ∧ ∀ t ∈ g.Delay, t = 1 :=
  main_encodes_121_frames (17453292519943295 / 1000000000000000000) (fun _ => 0)
    { ringFailureEnv with TransformPoints := fun _ points => (points, none) }
    [{ Geometry := Except.ok [[{ X := fin 0, Y := fin 0 }]] }]
    (by decide) rfl rfl (by simp) rfl (fun _ _ => rfl) (fun _ _ => rfl) (fun _ _ => rfl)
    (fun f hf => by
      simp only [List.mem_singleton] at hf
      subst hf
      exact ⟨_, rfl⟩)
    rfl (fun _ => rfl)

/-- C9 (the code at every frame): the commands that precede the outline set
the fill colour to `colorOcean`, the stroke colour to `colorBlack`, whose
value is opaque white (255, 255, 255, 255) and not black, and the line width
to 5, as the land pass does; every rendered frame starts with these commands,
followed by the outline. -/
theorem outline_stroke_is_white (d : ℚ) (u : F64 → Int) (env : Env) (features : List Feature)
    (lon : ℚ) :
    colorBlack = { R := 255, G := 255, B := 255, A := 255 } ∧
    currentStroke framePrologue = some { R := 255, G := 255, B := 255, A := 255 } ∧
    currentStroke framePrologue ≠ some { R := 0, G := 0, B := 0, A := 255 } ∧
    currentFill framePrologue = some colorOcean ∧
    currentWidth framePrologue = some 5 ∧
    currentWidth landSetup = some 5 ∧
    (match renderFrame d u env features lon with
      | Except.ok p => ∃ globe rest, p.gc = framePrologue ++ drawGlobe globe ++ landSetup ++ rest
      | Except.error _ => True) := by
  refine ⟨rfl, ?_, ?_, ?_, ?_, ?_, ?_⟩
  · simp [framePrologue, currentStroke, colorBlack]
  · simp [framePrologue, currentStroke, colorBlack]
  · simp [framePrologue, currentFill]
  · simp [framePrologue, currentWidth]
  · simp [landSetup, currentWidth]
  · cases h : renderFrame d u env features lon with
    | error e => trivial
    | ok p => exact renderFrame_shape d u env features lon p h

end Earth
